import Mathlib

/-!
Verification of the port-inspection dashboard (`src/dashboard.py`).

The dashboard is a single linear pipeline over two in-memory tables.  We embed
the data model and each computation of `main` as executable Lean definitions:

* `AuthorityRow` / `ShipRow` mirror the rows of the two spreadsheets;
* `portFilter` mirrors `df[df["Authority"] == selected_port]` (line 84);
* `topPhrases` mirrors `filtered_df.nlargest(top_n, "TF-IDF Score")`
  (line 136), modelled as a stable descending sort followed by `take`;
* `reSearch`/`searchFilter` mirror
  `filtered_df[filtered_df['Phrase'].str.contains(search_term, case=False)]`
  (line 193); pandas interprets the search term as a regular expression
  (`regex=True` is the default), which we model for the literal/`.` fragment;
* `combinedText`/`topKeywords` mirror the deficiency concatenation and the
  RAKE post-processing (lines 92-100); the RAKE library itself is external,
  so theorems are parametric in the extractor;
* `matchedTable`/`matchedKeywords` mirror the nested containment scan
  (lines 108-116);
* `toCsv`/`parseCsv` model `to_csv(index=False)` with minimal quoting and the
  CSV reader as a character-level state machine (lines 203-208);
* `load_authority_data`/`load_ship_data`/`mainGuard` model the guarded load
  (lines 39-66) and `mainView` the whole per-interaction render.
-/

/-- Python `str.lower()` (ASCII case folding, as in the data at hand). -/
def pyLower (s : String) : String := ⟨s.data.map Char.toLower⟩

/-- Python's substring test `a in b` on strings. -/
def pyIn (a b : String) : Bool := b.data.tails.any (fun t => a.data.isPrefixOf t)

/-- `needle` occurs case-insensitively inside `hay` (the spec's notion of a
case-insensitive substring). -/
def ciSubstring (needle hay : String) : Prop :=
  ∃ p s, (pyLower hay).data = p ++ (pyLower needle).data ++ s

/-- One row of the authority spreadsheet: columns
`Authority`, `Date`, `Phrase`, `TF-IDF Score`. -/
structure AuthorityRow where
  authority : String
  date : String
  phrase : String
  score : ℚ
deriving DecidableEq, Repr

/-- One row of the ship spreadsheet: columns `Vessel Name` and
`Nature of deficiency`; `none` models a missing (NaN) cell. -/
structure ShipRow where
  vesselName : Option String
  deficiency : Option String
deriving DecidableEq, Repr

/-- Sidebar/UI messages, tagged by severity
(`st.info` / `st.error` / `st.success` / `st.warning` / `st.write`). -/
inductive UiMsg where
  | info (s : String)
  | error (s : String)
  | success (s : String)
  | warning (s : String)
  | write (s : String)
deriving DecidableEq, Repr

/-- Line 84: `filtered_df = df[df["Authority"] == selected_port]`. -/
def portFilter (df : List AuthorityRow) (port : String) : List AuthorityRow :=
  df.filter (fun r => r.authority == port)

/-- Lexicographic comparison of character lists by code point (how Python
compares strings). -/
def lexLe : List Char → List Char → Bool
  | [], _ => true
  | _ :: _, [] => false
  | c :: cs, d :: ds =>
    if c.toNat < d.toNat then true
    else if d.toNat < c.toNat then false
    else lexLe cs ds

/-- Python `a <= b` on strings. -/
def strLe (a b : String) : Bool := lexLe a.data b.data

/-- Insert a string into an ascending list (stable insertion sort step). -/
def insAsc (a : String) : List String → List String
  | [] => [a]
  | b :: l => if strLe a b then a :: b :: l else b :: insAsc a l

/-- Stable ascending sort of strings (models Python `sorted`). -/
def sortAsc : List String → List String
  | [] => []
  | a :: l => insAsc a (sortAsc l)

/-- Line 81: `ports = sorted(df["Authority"].unique())`
(first-occurrence deduplication, then ascending sort). -/
def portOptions (df : List AuthorityRow) : List String :=
  sortAsc ((df.map (fun r => r.authority)).dedup)

/-- Stable insertion of `a` into a list sorted descending by `key`:
`a` is placed before the first element whose key is `≤ key a`, so among
equal keys the earlier source element stays first. -/
def insDesc (key : α → ℚ) (a : α) : List α → List α
  | [] => [a]
  | b :: l => if key b ≤ key a then a :: b :: l else b :: insDesc key a l

/-- Stable descending sort by `key` (insertion sort). -/
def sortDescBy (key : α → ℚ) : List α → List α
  | [] => []
  | a :: l => insDesc key a (sortDescBy key l)

/-- Line 136: `filtered_df.nlargest(top_n, "TF-IDF Score")` — the `top_n`
rows of largest score, in descending score order, `keep='first'`
(stable: ties resolved in source order). -/
def topPhrases (n : ℕ) (filtered : List AuthorityRow) : List AuthorityRow :=
  (sortDescBy (fun r => r.score) filtered).take n

/-- One token of the regular-expression fragment that pandas
`str.contains(..., case=False)` (default `regex=True`) applies: a literal
character or the metacharacter `.`.  Other regex metacharacters do not occur
in the inputs our theorems quantify over. -/
inductive RTok where
  | dot
  | lit (c : Char)
deriving DecidableEq, Repr

/-- Compile one pattern character. -/
def compileTok (c : Char) : RTok := if c = '.' then RTok.dot else RTok.lit c

/-- Compile a search pattern (literal/`.` fragment of Python `re`). -/
def compilePat (s : String) : List RTok := s.data.map compileTok

/-- Whether a token matches one character, with `re.IGNORECASE` semantics;
`.` matches any character except a newline (no `DOTALL`). -/
def tokMatches (t : RTok) (c : Char) : Bool :=
  match t with
  | RTok.dot => !(c == Char.ofNat 10)
  | RTok.lit a => a.toLower == c.toLower

/-- Match the whole token list against a prefix of `cs`. -/
def matchHere : List RTok → List Char → Bool
  | [], _ => true
  | _ :: _, [] => false
  | t :: ts, c :: cs => tokMatches t c && matchHere ts cs

/-- Python `re.search`: the pattern matches at some position of `cs`. -/
def reSearch (pat : List RTok) (cs : List Char) : Bool :=
  cs.tails.any (fun t => matchHere pat t)

/-- The metacharacters of Python regular expressions; a search term that
avoids all of them is matched literally by `re.search`. -/
def regexMetachars : List Char :=
  ['.', '^', '$', '*', '+', '?', Char.ofNat 123, Char.ofNat 125,
    '[', ']', '\\', '|', '(', ')']

/-- Lines 192-195: if a search term was entered, keep the rows whose
`Phrase` matches it via `str.contains(search_term, case=False)`
(a case-insensitive *regex* search); an empty term is falsy in Python,
so no restriction is applied. -/
def searchFilter (searchTerm : String) (rows : List AuthorityRow) : List AuthorityRow :=
  if searchTerm = "" then rows
  else rows.filter (fun r => reSearch (compilePat searchTerm) r.phrase.data)

/-- Lines 92-93: the selected vessel's rows, then
`ship_rows['Nature of deficiency'].dropna().astype(str)`. -/
def pastDeficiencies (shipDf : List ShipRow) (vessel : String) : List String :=
  (shipDf.filter (fun r => r.vesselName == some vessel)).filterMap (fun r => r.deficiency)

/-- Line 94: `" ".join([t for t in past_deficiencies if t.lower() != "nil"])`. -/
def combinedText (shipDf : List ShipRow) (vessel : String) : String :=
  String.intercalate " "
    ((pastDeficiencies shipDf vessel).filter (fun t => !(pyLower t == "nil")))

/-- Modelled from the spec's words, for comparison with `combinedText`
(claim C2 reads "non-\"nil\"" literally): concatenation of the entries whose
text is not exactly the string `"nil"`. -/
def combinedTextSpecLiteral (shipDf : List ShipRow) (vessel : String) : String :=
  String.intercalate " "
    ((pastDeficiencies shipDf vessel).filter (fun t => !(t == "nil")))

/-- Lines 97-100: RAKE extraction followed by
`[phrase for score, phrase in ranked_phrases[:10]]`.  The RAKE library is
external to the repository, so the extractor `rake` (text to scored,
rank-ordered phrases) is a parameter. -/
def topKeywords (rake : String → List (ℚ × String)) (shipDf : List ShipRow)
    (vessel : String) : List String :=
  ((rake (combinedText shipDf vessel)).take 10).map Prod.snd

/-- Lines 103-106: the sidebar either lists the extracted keywords or shows
the informational message `No relevant deficiencies found.`. -/
def keywordMessage (topKw : List String) : UiMsg :=
  if topKw.isEmpty then UiMsg.info "No relevant deficiencies found."
  else UiMsg.write (String.intercalate ", " topKw)

/-- Line 108: `authority_phrases = filtered_df['Phrase'].str.lower().tolist()`. -/
def authorityPhrases (filtered : List AuthorityRow) : List String :=
  filtered.map (fun r => pyLower r.phrase)

/-- Lines 109-114: the nested scan recording
`{"Matched Keyword": kw, "Port Phrase": phrase}` whenever
`kw.lower() in phrase` (the phrases are pre-lowercased). -/
def matchedTable (keywords phrases : List String) : List (String × String) :=
  keywords.flatMap (fun kw =>
    (phrases.filter (fun p => pyIn (pyLower kw) p)).map (fun p => (kw, p)))

/-- Line 116: `list({row['Matched Keyword'] for row in matched_table})` —
the deduplicated matched keywords shown in the warning banner. -/
def matchedKeywords (tbl : List (String × String)) : List String :=
  (tbl.map Prod.fst).dedup

/-- A CSV field must be quoted when it contains the delimiter, the quote
character, or a line-break character (`QUOTE_MINIMAL`, the `to_csv` default). -/
def needsQuote (s : String) : Bool :=
  s.data.any (fun c => c == ',' || c == '"' || c == Char.ofNat 10 || c == Char.ofNat 13)

/-- Double every quote character (the CSV escape inside a quoted field). -/
def doubleQuotes (cs : List Char) : List Char :=
  cs.flatMap (fun c => if c = '"' then ['"', '"'] else [c])

/-- Serialize one CSV field with minimal quoting. -/
def escapeField (s : String) : List Char :=
  if needsQuote s then '"' :: doubleQuotes s.data ++ ['"'] else s.data

/-- Join already-escaped fields with the `,` delimiter. -/
def fieldsChars : List (List Char) → List Char
  | [] => []
  | [f] => f
  | f :: rest => f ++ ',' :: fieldsChars rest

/-- One serialized CSV record (line content, without the terminator). -/
def csvLine (row : List String) : List Char :=
  fieldsChars (row.map escapeField)

/-- Lines 203-208 (serialization side): `filtered_df.to_csv(index=False)` —
header record then one record per row, each terminated by a newline. -/
def toCsv (header : List String) (rows : List (List String)) : String :=
  ⟨(header :: rows).flatMap (fun r => csvLine r ++ [Char.ofNat 10])⟩

/-- CSV reader mode: inside an unquoted field, inside a quoted field, just
after a closing quote, or failed (quote followed by a stray character). -/
inductive CsvMode where
  | plain
  | quoted
  | afterQuote
  | failed
deriving DecidableEq, Repr

/-- CSV reader state: completed records, fields of the current record,
characters of the current field, and the mode. -/
structure CsvSt where
  rows : List (List String)
  cur : List String
  field : List Char
  mode : CsvMode
deriving DecidableEq, Repr

/-- Finish the current record; a record consisting of one empty field is a
blank line and is skipped (`skip_blank_lines`, the `read_csv` default). -/
def csvEndLine (st : CsvSt) : CsvSt :=
  let row := st.cur ++ [⟨st.field⟩]
  { rows := if row = [""] then st.rows else st.rows ++ [row]
    cur := [], field := [], mode := CsvMode.plain }

/-- One step of the CSV reader. -/
def csvStep (st : CsvSt) (c : Char) : CsvSt :=
  match st.mode with
  | CsvMode.failed => st
  | CsvMode.plain =>
    if c = ',' then { st with cur := st.cur ++ [⟨st.field⟩], field := [] }
    else if c = Char.ofNat 10 then csvEndLine st
    else if c = '"' ∧ st.field = [] then { st with mode := CsvMode.quoted }
    else { st with field := st.field ++ [c] }
  | CsvMode.quoted =>
    if c = '"' then { st with mode := CsvMode.afterQuote }
    else { st with field := st.field ++ [c] }
  | CsvMode.afterQuote =>
    if c = '"' then { st with field := st.field ++ ['"'], mode := CsvMode.quoted }
    else if c = ',' then
      { st with cur := st.cur ++ [⟨st.field⟩], field := [], mode := CsvMode.plain }
    else if c = Char.ofNat 10 then csvEndLine st
    else { st with mode := CsvMode.failed }

/-- The initial CSV reader state. -/
def csvInit : CsvSt := ⟨[], [], [], CsvMode.plain⟩

/-- Flush the reader state at end of input; an unterminated quoted field or an
earlier failure yields `none`. -/
def csvFinish (st : CsvSt) : Option (List (List String)) :=
  match st.mode with
  | CsvMode.failed => none
  | CsvMode.quoted => none
  | CsvMode.afterQuote => some (csvEndLine st).rows
  | CsvMode.plain =>
    if st.cur = [] ∧ st.field = [] then some st.rows else some (csvEndLine st).rows

/-- Parse a CSV document into its records. -/
def parseCsvRecords (s : String) : Option (List (List String)) :=
  csvFinish (s.data.foldl csvStep csvInit)

/-- Re-parsing side of the round trip: the first record is the header, the
remaining records are the rows; a document with no records is an error. -/
def parseCsv (s : String) : Option (List String × List (List String)) :=
  match parseCsvRecords s with
  | none => none
  | some [] => none
  | some (h :: t) => some (h, t)

/-- The column headers of the exported authority table. -/
def authorityHeader : List String := ["Authority", "Date", "Phrase", "TF-IDF Score"]

/-- The textual cells of one exported authority row. -/
def renderRow (r : AuthorityRow) : List String :=
  [r.authority, r.date, r.phrase, toString r.score]

/-- Line 205: `filtered_df.to_csv(index=False)`. -/
def exportCsv (filtered : List AuthorityRow) : String :=
  toCsv authorityHeader (filtered.map renderRow)

/-- Line 206: `f"port_inspection_data_{selected_port}_{datetime.now().strftime('%Y%m%d')}.csv"`. -/
def csvFileName (port today : String) : String :=
  "port_inspection_data_" ++ port ++ "_" ++ today ++ ".csv"

/-- Lines 39-46: `load_authority_data` — the result of the `read_excel`
attempt is the argument; on success the parsed table is returned, on failure
an error message is surfaced via `st.error` and `None` is returned. -/
def load_authority_data (readResult : Except String (List AuthorityRow)) :
    Option (List AuthorityRow) × List UiMsg :=
  match readResult with
  | Except.ok df => (some df, [])
  | Except.error e => (none, [UiMsg.error ("Error loading authority data: " ++ e)])

/-- Lines 49-56: `load_ship_data`, same contract for the ship spreadsheet. -/
def load_ship_data (readResult : Except String (List ShipRow)) :
    Option (List ShipRow) × List UiMsg :=
  match readResult with
  | Except.ok df => (some df, [])
  | Except.error e => (none, [UiMsg.error ("Error loading ship data: " ++ e)])

/-- Mean of the `TF-IDF Score` column (over `ℚ`; the mean of an empty column
is the degenerate `0/0 = 0`, a case the metrics claims do not touch). -/
def meanScore (rows : List AuthorityRow) : ℚ :=
  (rows.map (fun r => r.score)).sum / (rows.length : ℚ)

/-- Everything one interaction renders downstream of the filters: the bar
chart's rows, the word-cloud frequency pairs, the three metrics, the
searchable table, the CSV download and its file name, and the keyword-match
artifacts of the sidebar. -/
structure DashboardView where
  chartRows : List AuthorityRow
  wordcloudFreqs : List (String × ℚ)
  avgScore : ℚ
  avgDelta : ℚ
  phraseCount : ℕ
  maxScore : Option ℚ
  tableRows : List AuthorityRow
  csvData : String
  fileName : String
  keywords : List String
  keywordMsg : UiMsg
  matchTable : List (String × String)
  banner : List String
deriving DecidableEq, Repr

/-- Lines 68-208: the whole render pass of `main` after both loads succeed.
`dateRange` is the value of the sidebar date-range picker (line 74); the
source binds it but never uses it.  `rake` is the external RAKE extractor,
`today` the current date string. -/
def mainView (rake : String → List (ℚ × String)) (df : List AuthorityRow)
    (shipDf : List ShipRow) (dateRange : Option (String × String))
    (port vessel : String) (searchTerm : String) (topN : ℕ)
    (today : String) : DashboardView :=
  let filtered := portFilter df port
  let topKw := topKeywords rake shipDf vessel
  let tbl := matchedTable topKw (authorityPhrases filtered)
  { chartRows := topPhrases topN filtered
    wordcloudFreqs := filtered.map (fun r => (r.phrase, r.score))
    avgScore := meanScore filtered
    avgDelta := meanScore filtered - meanScore df
    phraseCount := filtered.length
    maxScore := (filtered.map (fun r => r.score)).maximum
    tableRows := searchFilter searchTerm filtered
    csvData := exportCsv filtered
    fileName := csvFileName port today
    keywords := topKw
    keywordMsg := keywordMessage topKw
    matchTable := tbl
    banner := matchedKeywords tbl }

/-- Lines 63-66: `main` halts the render pass when either load failed. -/
def mainGuard (rake : String → List (ℚ × String))
    (authRead : Except String (List AuthorityRow))
    (shipRead : Except String (List ShipRow))
    (dateRange : Option (String × String)) (port vessel : String)
    (searchTerm : String) (topN : ℕ) (today : String) :
    Option DashboardView × List UiMsg :=
  let a := load_authority_data authRead
  let s := load_ship_data shipRead
  match a.fst, s.fst with
  | some df, some shipDf =>
    (some (mainView rake df shipDf dateRange port vessel searchTerm topN today),
      a.snd ++ s.snd)
  | _, _ => (none, a.snd ++ s.snd)


/-! ## Substring characterization -/

/-- `List.isPrefixOf` on characters means "an initial segment of". -/
theorem isPrefixOf_eq_true_iff (a : List Char) :
    ∀ b : List Char, a.isPrefixOf b = true ↔ ∃ s, b = a ++ s := by
  induction a with
  | nil => intro b; simp [List.isPrefixOf]
  | cons x xs ih =>
    intro b
    cases b with
    | nil => simp [List.isPrefixOf]
    | cons y ys =>
      simp only [List.isPrefixOf, Bool.and_eq_true, beq_iff_eq, ih]
      constructor
      · rintro ⟨rfl, s, rfl⟩; exact ⟨s, rfl⟩
      · rintro ⟨s, hs⟩
        rw [List.cons_append] at hs
        cases hs
        exact ⟨rfl, s, rfl⟩

/-- Membership in `List.tails` means "a final segment of". -/
theorem mem_tails_iff (l : List Char) :
    ∀ t : List Char, t ∈ l.tails ↔ ∃ p, l = p ++ t := by
  induction l with
  | nil =>
    intro t
    simp only [List.tails, List.mem_singleton]
    constructor
    · rintro rfl; exact ⟨[], rfl⟩
    · rintro ⟨p, hp⟩
      exact (List.append_eq_nil.mp hp.symm).2
  | cons x xs ih =>
    intro t
    simp only [List.tails, List.mem_cons, ih]
    constructor
    · rintro (rfl | ⟨p, rfl⟩)
      · exact ⟨[], rfl⟩
      · exact ⟨x :: p, rfl⟩
    · rintro ⟨p, hp⟩
      cases p with
      | nil => exact Or.inl hp.symm
      | cons y p =>
        rw [List.cons_append] at hp
        cases hp
        exact Or.inr ⟨p, rfl⟩

/-- Python's `a in b` holds exactly when `a`'s characters occur contiguously
inside `b`'s. -/
theorem pyIn_iff (a b : String) :
    pyIn a b = true ↔ ∃ p s, b.data = p ++ a.data ++ s := by
  simp only [pyIn, List.any_eq_true, mem_tails_iff, isPrefixOf_eq_true_iff]
  constructor
  · rintro ⟨t, ⟨p, hp⟩, s, rfl⟩
    exact ⟨p, s, by simpa [List.append_assoc] using hp⟩
  · rintro ⟨p, s, hb⟩
    exact ⟨a.data ++ s, ⟨p, by simpa [List.append_assoc] using hb⟩, s, rfl⟩

/-- The code's pre-lowered containment test is the spec's case-insensitive
substring relation. -/
theorem pyIn_lower_iff (a b : String) :
    pyIn (pyLower a) (pyLower b) = true ↔ ciSubstring a b :=
  pyIn_iff (pyLower a) (pyLower b)

/-! ## Stable descending sort (the `nlargest` model) -/

theorem length_insDesc (key : α → ℚ) (a : α) (l : List α) :
    (insDesc key a l).length = l.length + 1 := by
  induction l with
  | nil => rfl
  | cons b t ih =>
    simp only [insDesc]
    split
    · rfl
    · simp [ih]

theorem length_sortDescBy (key : α → ℚ) (l : List α) :
    (sortDescBy key l).length = l.length := by
  induction l with
  | nil => rfl
  | cons a t ih => simp [sortDescBy, length_insDesc, ih]

theorem perm_insDesc (key : α → ℚ) (a : α) (l : List α) :
    List.Perm (insDesc key a l) (a :: l) := by
  induction l with
  | nil => exact List.Perm.refl _
  | cons b t ih =>
    simp only [insDesc]
    split
    · exact List.Perm.refl _
    · exact (ih.cons b).trans (List.Perm.swap a b t)

theorem perm_sortDescBy (key : α → ℚ) (l : List α) :
    List.Perm (sortDescBy key l) l := by
  induction l with
  | nil => exact List.Perm.refl _
  | cons a t ih => exact (perm_insDesc key a (sortDescBy key t)).trans (ih.cons a)

theorem mem_insDesc (key : α → ℚ) (a x : α) (l : List α) :
    x ∈ insDesc key a l ↔ x = a ∨ x ∈ l := by
  rw [(perm_insDesc key a l).mem_iff]
  simp

theorem sorted_insDesc (key : α → ℚ) (a : α) (l : List α)
    (h : List.Pairwise (fun x y => key y ≤ key x) l) :
    List.Pairwise (fun x y => key y ≤ key x) (insDesc key a l) := by
  induction l with
  | nil => simp [insDesc]
  | cons b t ih =>
    simp only [insDesc]
    rcases List.pairwise_cons.mp h with ⟨hb, ht⟩
    split
    · rename_i hba
      exact List.pairwise_cons.mpr ⟨by
        intro x hx
        rcases List.mem_cons.mp hx with rfl | hxt
        · exact hba
        · exact le_trans (hb x hxt) hba, h⟩
    · rename_i hba
      refine List.pairwise_cons.mpr ⟨?_, ih ht⟩
      intro x hx
      rcases (mem_insDesc key a x t).mp hx with rfl | hxt
      · exact le_of_lt (lt_of_not_le hba)
      · exact hb x hxt

theorem sorted_sortDescBy (key : α → ℚ) (l : List α) :
    List.Pairwise (fun x y => key y ≤ key x) (sortDescBy key l) := by
  induction l with
  | nil => simp [sortDescBy]
  | cons a t ih => exact sorted_insDesc key a (sortDescBy key t) ih

theorem filter_insDesc_eq (key : α → ℚ) (a : α) (q : ℚ) (l : List α)
    (h : key a = q) :
    (insDesc key a l).filter (fun x => decide (key x = q)) =
      a :: l.filter (fun x => decide (key x = q)) := by
  induction l with
  | nil => simp [insDesc, List.filter, h]
  | cons b t ih =>
    simp only [insDesc]
    split
    · simp [List.filter, h]
    · rename_i hba
      have hbq : ¬ key b = q := by
        intro hb
        exact hba (by rw [hb, ← h])
      simp [List.filter_cons, hbq, ih]

theorem filter_insDesc_ne (key : α → ℚ) (a : α) (q : ℚ) (l : List α)
    (h : ¬ key a = q) :
    (insDesc key a l).filter (fun x => decide (key x = q)) =
      l.filter (fun x => decide (key x = q)) := by
  induction l with
  | nil => simp [insDesc, List.filter, h]
  | cons b t ih =>
    simp only [insDesc]
    split
    · simp [List.filter_cons, h]
    · simp [List.filter_cons, ih]

/-- The sort is stable: for each score value, the rows carrying that score
appear in the sorted list exactly in their source order. -/
theorem filter_sortDescBy (key : α → ℚ) (q : ℚ) (l : List α) :
    (sortDescBy key l).filter (fun x => decide (key x = q)) =
      l.filter (fun x => decide (key x = q)) := by
  induction l with
  | nil => rfl
  | cons a t ih =>
    simp only [sortDescBy]
    by_cases h : key a = q
    · rw [filter_insDesc_eq key a q _ h, ih, List.filter_cons]
      simp [h]
    · rw [filter_insDesc_ne key a q _ h, ih, List.filter_cons]
      simp [h]

/-! ## The literal fragment of the search regex -/

theorem tails_map (f : Char → Char) (l : List Char) :
    (l.map f).tails = l.tails.map (List.map f) := by
  induction l with
  | nil => rfl
  | cons x xs ih => simp [List.tails_cons, ih]

/-- On a pattern free of `.`, `matchHere` is a case-folded initial-segment
test. -/
theorem matchHere_literal (xs : List Char) (h : ∀ c ∈ xs, ¬ c = '.') :
    ∀ ys : List Char,
      matchHere (xs.map compileTok) ys =
        (xs.map Char.toLower).isPrefixOf (ys.map Char.toLower) := by
  induction xs with
  | nil => intro ys; cases ys <;> simp [matchHere, List.isPrefixOf]
  | cons x t ih =>
    intro ys
    have hx : compileTok x = RTok.lit x := by
      simp [compileTok, h x (List.mem_cons_self x t)]
    cases ys with
    | nil => simp [matchHere, List.isPrefixOf]
    | cons y ys =>
      have ht : ∀ c ∈ t, ¬ c = '.' := fun c hc => h c (List.mem_cons_of_mem x hc)
      simp [matchHere, hx, tokMatches, List.isPrefixOf, ih ht ys]

/-- On a metacharacter-free search term, the pandas regex search coincides
with Python's case-folded substring test. -/
theorem reSearch_literal (s t : String) (h : ∀ c ∈ s.data, c ∉ regexMetachars) :
    reSearch (compilePat s) t.data = pyIn (pyLower s) (pyLower t) := by
  have hdot : ∀ c ∈ s.data, ¬ c = '.' := by
    intro c hc he
    exact h c hc (by simp [regexMetachars, he])
  have hlow : ∀ u : List Char, matchHere (compilePat s) u =
      (s.data.map Char.toLower).isPrefixOf (u.map Char.toLower) :=
    matchHere_literal s.data hdot
  simp only [reSearch, pyIn, pyLower, tails_map, List.any_map, Function.comp]
  congr 1
  funext u
  exact hlow u

/-! ## CSV round trip -/

theorem string_mk_data (s : String) : String.mk s.data = s := rfl

theorem fieldsChars_one (a : List Char) : fieldsChars [a] = a := rfl

theorem fieldsChars_cons₂ (a b : List Char) (rest : List (List Char)) :
    fieldsChars (a :: b :: rest) = a ++ ',' :: fieldsChars (b :: rest) := rfl

theorem csvStep_plain_lit (st : CsvSt) (c : Char) (hm : st.mode = CsvMode.plain)
    (hc1 : ¬ c = ',') (hc2 : ¬ c = Char.ofNat 10) (hc3 : ¬ c = '"') :
    csvStep st c = { st with field := st.field ++ [c] } := by
  cases st
  simp only at hm
  subst hm
  simp [csvStep, hc1, hc2]
  intro h
  exact absurd h hc3

theorem foldl_unquoted (cs : List Char)
    (h : ∀ c ∈ cs, ¬ c = ',' ∧ ¬ c = Char.ofNat 10 ∧ ¬ c = '"') :
    ∀ st : CsvSt, st.mode = CsvMode.plain →
      List.foldl csvStep st cs = { st with field := st.field ++ cs } := by
  induction cs with
  | nil => intro st _; simp
  | cons c cs ih =>
    intro st hm
    obtain ⟨h1, h2, h3⟩ := h c (List.mem_cons_self c cs)
    rw [List.foldl_cons, csvStep_plain_lit st c hm h1 h2 h3,
      ih (fun d hd => h d (List.mem_cons_of_mem c hd)) _ (by simp [hm])]
    simp

theorem foldl_doubled (cs : List Char) :
    ∀ st : CsvSt, st.mode = CsvMode.quoted →
      List.foldl csvStep st (doubleQuotes cs) = { st with field := st.field ++ cs } := by
  induction cs with
  | nil => intro st _; simp [doubleQuotes]
  | cons c cs ih =>
    intro st hm
    obtain ⟨rows, cur, field, mode⟩ := st
    simp only at hm
    subst hm
    by_cases hc : c = '"'
    · subst hc
      have : doubleQuotes ('"' :: cs) = '"' :: '"' :: doubleQuotes cs := by
        simp [doubleQuotes]
      rw [this, List.foldl_cons, List.foldl_cons]
      have s1 : csvStep ⟨rows, cur, field, CsvMode.quoted⟩ '"' =
          ⟨rows, cur, field, CsvMode.afterQuote⟩ := rfl
      have s2 : csvStep ⟨rows, cur, field, CsvMode.afterQuote⟩ '"' =
          ⟨rows, cur, field ++ ['"'], CsvMode.quoted⟩ := rfl
      rw [s1, s2, ih _ rfl]
      simp
    · have : doubleQuotes (c :: cs) = c :: doubleQuotes cs := by
        simp [doubleQuotes, hc]
      rw [this, List.foldl_cons]
      have s1 : csvStep ⟨rows, cur, field, CsvMode.quoted⟩ c =
          ⟨rows, cur, field ++ [c], CsvMode.quoted⟩ := by
        simp [csvStep, hc]
      rw [s1, ih _ rfl]
      simp

theorem foldl_escape (f : String) (rows : List (List String)) (cur : List String) :
    ∃ m, List.foldl csvStep ⟨rows, cur, [], CsvMode.plain⟩ (escapeField f) =
        ⟨rows, cur, f.data, m⟩ ∧ (m = CsvMode.plain ∨ m = CsvMode.afterQuote) := by
  by_cases hq : needsQuote f
  · refine ⟨CsvMode.afterQuote, ?_, Or.inr rfl⟩
    have he : escapeField f = '"' :: (doubleQuotes f.data ++ ['"']) := by
      simp [escapeField, hq]
    have s1 : csvStep ⟨rows, cur, [], CsvMode.plain⟩ '"' =
        ⟨rows, cur, [], CsvMode.quoted⟩ := rfl
    rw [he, List.foldl_cons, s1, List.foldl_append,
      foldl_doubled f.data _ rfl]
    rfl
  · have hq2 : ∀ x ∈ f.data,
        ((¬ x = ',' ∧ ¬ x = '"') ∧ ¬ x = Char.ofNat 10) ∧ ¬ x = Char.ofNat 13 := by
      simpa [needsQuote] using hq
    have hchars : ∀ c ∈ f.data, ¬ c = ',' ∧ ¬ c = Char.ofNat 10 ∧ ¬ c = '"' :=
      fun c hc => ⟨(hq2 c hc).1.1.1, (hq2 c hc).1.2, (hq2 c hc).1.1.2⟩
    have he : escapeField f = f.data := by simp [escapeField, hq]
    rw [he, foldl_unquoted f.data hchars _ rfl]
    exact ⟨CsvMode.plain, by simp, Or.inl rfl⟩

theorem csvStep_comma (rows : List (List String)) (cur : List String)
    (field : List Char) (m : CsvMode)
    (hm : m = CsvMode.plain ∨ m = CsvMode.afterQuote) :
    csvStep ⟨rows, cur, field, m⟩ ',' =
      ⟨rows, cur ++ [String.mk field], [], CsvMode.plain⟩ := by
  rcases hm with rfl | rfl <;> rfl

theorem csvStep_newline (rows : List (List String)) (cur : List String)
    (field : List Char) (m : CsvMode)
    (hm : m = CsvMode.plain ∨ m = CsvMode.afterQuote) :
    csvStep ⟨rows, cur, field, m⟩ (Char.ofNat 10) =
      csvEndLine ⟨rows, cur, field, m⟩ := by
  rcases hm with rfl | rfl <;> rfl

theorem foldl_record (row : List String) (hne : ¬ row = []) :
    ∀ rows cur, List.foldl csvStep ⟨rows, cur, [], CsvMode.plain⟩
        (csvLine row ++ [Char.ofNat 10]) =
      ⟨if cur ++ row = [""] then rows else rows ++ [cur ++ row],
        [], [], CsvMode.plain⟩ := by
  induction row with
  | nil => exact absurd rfl hne
  | cons f rest ih =>
    intro rows cur
    cases rest with
    | nil =>
      have hl : csvLine [f] = escapeField f := rfl
      obtain ⟨m, hm, hcases⟩ := foldl_escape f rows cur
      rw [hl, List.foldl_append, hm, List.foldl_cons, List.foldl_nil,
        csvStep_newline rows cur f.data m hcases]
      simp [csvEndLine, string_mk_data]
    | cons g t =>
      have hl : csvLine (f :: g :: t) =
          escapeField f ++ ',' :: csvLine (g :: t) := rfl
      have hsplit : csvLine (f :: g :: t) ++ [Char.ofNat 10] =
          escapeField f ++ ',' :: (csvLine (g :: t) ++ [Char.ofNat 10]) := by
        rw [hl]; simp
      obtain ⟨m, hm, hcases⟩ := foldl_escape f rows cur
      rw [hsplit, List.foldl_append, hm, List.foldl_cons,
        csvStep_comma rows cur f.data m hcases, string_mk_data,
        ih (by simp) rows (cur ++ [f])]
      simp

theorem foldl_records (rss : List (List String))
    (h : ∀ r ∈ rss, ¬ r = [] ∧ ¬ r = [""]) :
    ∀ rows, List.foldl csvStep ⟨rows, [], [], CsvMode.plain⟩
        (rss.flatMap (fun r => csvLine r ++ [Char.ofNat 10])) =
      ⟨rows ++ rss, [], [], CsvMode.plain⟩ := by
  induction rss with
  | nil => intro rows; simp
  | cons r rss ih =>
    intro rows
    obtain ⟨h1, h2⟩ := h r (List.mem_cons_self r rss)
    rw [List.flatMap_cons, List.foldl_append, foldl_record r h1 rows [],
      List.nil_append, if_neg h2,
      ih (fun x hx => h x (List.mem_cons_of_mem r hx)) (rows ++ [r])]
    simp

/-- Round trip for well-formed tables: serializing with minimal quoting and
re-reading recovers the header and every row verbatim. -/
theorem parseCsv_toCsv (header : List String) (rows : List (List String))
    (hh1 : ¬ header = []) (hh2 : ¬ header = [""])
    (hr : ∀ r ∈ rows, ¬ r = [] ∧ ¬ r = [""]) :
    parseCsv (toCsv header rows) = some (header, rows) := by
  have hall : ∀ r ∈ header :: rows, ¬ r = [] ∧ ¬ r = [""] := by
    intro r hrr
    rcases List.mem_cons.mp hrr with rfl | hmem
    · exact ⟨hh1, hh2⟩
    · exact hr r hmem
  have : parseCsvRecords (toCsv header rows) = some (header :: rows) := by
    unfold parseCsvRecords toCsv
    rw [show (String.mk ((header :: rows).flatMap
        (fun r => csvLine r ++ [Char.ofNat 10]))).data =
        (header :: rows).flatMap (fun r => csvLine r ++ [Char.ofNat 10]) from rfl,
      show csvInit = (⟨[], [], [], CsvMode.plain⟩ : CsvSt) from rfl,
      foldl_records (header :: rows) hall []]
    rfl
  rw [parseCsv, this]

/-! ## Claim theorems -/

/-- C5: for every authority value selectable in the port selector, filtering
the authority table by it returns exactly the rows whose `Authority` field
equals it — only such rows, and all of them (multiplicities included). -/
theorem c5_port_filter_exact (df : List AuthorityRow) (port : String)
    (hport : port ∈ portOptions df) :
    (∀ r, r ∈ portFilter df port ↔ r ∈ df ∧ r.authority = port)
    ∧ ∀ r : AuthorityRow,
        (portFilter df port).count r = if r.authority = port then df.count r else 0 := by
  constructor
  · intro r
    simp [portFilter]
  · intro r
    by_cases h : r.authority = port
    · rw [if_pos h]
      exact List.count_filter (by simp [h])
    · rw [if_neg h]
      rw [List.count_eq_zero]
      simp [portFilter]
      intro _ hr
      exact absurd hr h

/-- C5 witness: a concrete table with one matching and one non-matching row. -/
theorem c5_port_filter_exact_witness :
    (∀ r, r ∈ portFilter
        [⟨"Antwerp", "2024-01-01", "fire safety", 2⟩,
          ⟨"Rotterdam", "2024-01-02", "life jackets", 1⟩] "Antwerp" ↔
      r ∈ [⟨"Antwerp", "2024-01-01", "fire safety", 2⟩,
          ⟨"Rotterdam", "2024-01-02", "life jackets", 1⟩] ∧ r.authority = "Antwerp")
    ∧ ∀ r : AuthorityRow,
        (portFilter
          [⟨"Antwerp", "2024-01-01", "fire safety", 2⟩,
            ⟨"Rotterdam", "2024-01-02", "life jackets", 1⟩] "Antwerp").count r =
          if r.authority = "Antwerp" then
            ([⟨"Antwerp", "2024-01-01", "fire safety", 2⟩,
              ⟨"Rotterdam", "2024-01-02", "life jackets", 1⟩] :
                List AuthorityRow).count r
          else 0 :=
  c5_port_filter_exact
    [⟨"Antwerp", "2024-01-01", "fire safety", 2⟩,
      ⟨"Rotterdam", "2024-01-02", "life jackets", 1⟩] "Antwerp" (by decide)

/-- C9: the value of the date-range picker is never used: every downstream
output of a render pass is identical under any two date-range selections. -/
theorem c9_date_range_has_no_effect (rake : String → List (ℚ × String))
    (df : List AuthorityRow) (shipDf : List ShipRow)
    (d1 d2 : Option (String × String)) (port vessel searchTerm : String)
    (topN : ℕ) (today : String) :
    mainView rake df shipDf d1 port vessel searchTerm topN today =
      mainView rake df shipDf d2 port vessel searchTerm topN today := rfl

/-- C10: the CSV download serializes the port-filtered subset whatever the
search term is; the search term restricts only the displayed table. -/
theorem c10_export_ignores_search (rake : String → List (ℚ × String))
    (df : List AuthorityRow) (shipDf : List ShipRow)
    (dr : Option (String × String)) (port vessel s1 s2 : String)
    (topN : ℕ) (today : String) :
    (mainView rake df shipDf dr port vessel s1 topN today).csvData =
      (mainView rake df shipDf dr port vessel s2 topN today).csvData
    ∧ (mainView rake df shipDf dr port vessel s1 topN today).csvData =
        exportCsv (portFilter df port)
    ∧ (mainView rake df shipDf dr port vessel s1 topN today).tableRows =
        searchFilter s1 (portFilter df port) :=
  ⟨rfl, rfl, rfl⟩

/-- C1: a pair (keyword, authority phrase) is recorded in the match table iff
the keyword is a case-insensitive substring of that authority phrase of the
port-filtered subset, and the warning banner receives exactly the
deduplicated set of keywords occurring in at least one match. -/
theorem c1_match_table_and_banner (keywords : List String)
    (df : List AuthorityRow) (port : String) :
    (∀ kw p,
      (kw, p) ∈ matchedTable keywords (authorityPhrases (portFilter df port)) ↔
        kw ∈ keywords ∧ ∃ r ∈ portFilter df port,
          p = pyLower r.phrase ∧ ciSubstring kw r.phrase)
    ∧ (matchedKeywords
        (matchedTable keywords (authorityPhrases (portFilter df port)))).Nodup
    ∧ ∀ kw,
        kw ∈ matchedKeywords
            (matchedTable keywords (authorityPhrases (portFilter df port))) ↔
          ∃ p, (kw, p) ∈ matchedTable keywords
            (authorityPhrases (portFilter df port)) := by
  refine ⟨?_, List.nodup_dedup _, ?_⟩
  · intro kw p
    simp only [matchedTable, authorityPhrases, List.mem_flatMap, List.mem_map,
      List.mem_filter, Prod.mk.injEq]
    constructor
    · rintro ⟨a, ha, q, ⟨⟨r, hr, rfl⟩, hq⟩, rfl, rfl⟩
      exact ⟨ha, r, hr, rfl, (pyIn_lower_iff a r.phrase).mp hq⟩
    · rintro ⟨hkw, r, hr, rfl, hci⟩
      exact ⟨kw, hkw, pyLower r.phrase, ⟨⟨r, hr, rfl⟩,
        (pyIn_lower_iff kw r.phrase).mpr hci⟩, rfl, rfl⟩
  · intro kw
    simp only [matchedKeywords, List.mem_dedup, List.mem_map]
    constructor
    · rintro ⟨⟨a, b⟩, hmem, rfl⟩
      exact ⟨b, hmem⟩
    · rintro ⟨p, hp⟩
      exact ⟨(kw, p), hp, rfl⟩

/-- C7: re-parsing the exported CSV recovers the same columns and the same
column values as the filtered subset, and the file name contains the
selected authority and the current date. -/
theorem c7_csv_round_trip (filtered : List AuthorityRow) (port today : String) :
    parseCsv (exportCsv filtered) =
      some (authorityHeader, filtered.map renderRow)
    ∧ (∃ pre suf, csvFileName port today = pre ++ port ++ suf)
    ∧ ∃ pre suf, csvFileName port today = pre ++ today ++ suf := by
  refine ⟨?_, ?_, ?_⟩
  · apply parseCsv_toCsv
    · simp [authorityHeader]
    · simp [authorityHeader]
    · intro r hr
      rcases List.mem_map.mp hr with ⟨x, _, rfl⟩
      constructor <;> simp [renderRow]
  · exact ⟨"port_inspection_data_", "_" ++ today ++ ".csv", by
      simp [csvFileName, String.append_assoc]⟩
  · exact ⟨"port_inspection_data_" ++ port ++ "_", ".csv", by
      simp [csvFileName, String.append_assoc]⟩

/-- C3: for every slider value n in [5,20], the bar chart shows exactly
min(n, |filtered rows|) phrases: the first n of a descending stable sort of
the port-filtered table — sorted by score, a permutation of the filtered
rows, with rows of equal score kept in source order. -/
theorem c3_bar_chart_top_n (df : List AuthorityRow) (port : String) (n : ℕ)
    (h5 : 5 ≤ n) (h20 : n ≤ 20) :
    (topPhrases n (portFilter df port)).length =
      min n (portFilter df port).length
    ∧ topPhrases n (portFilter df port) =
        (sortDescBy (fun r => r.score) (portFilter df port)).take n
    ∧ List.Pairwise (fun a b => b.score ≤ a.score)
        (topPhrases n (portFilter df port))
    ∧ List.Perm (sortDescBy (fun r => r.score) (portFilter df port))
        (portFilter df port)
    ∧ ∀ q : ℚ,
        (sortDescBy (fun r => r.score) (portFilter df port)).filter
            (fun r => decide (r.score = q)) =
          (portFilter df port).filter (fun r => decide (r.score = q)) := by
  refine ⟨?_, rfl, ?_, perm_sortDescBy _ _, fun q => filter_sortDescBy _ q _⟩
  · rw [topPhrases, List.length_take, length_sortDescBy]
  · exact List.Pairwise.sublist (List.take_sublist n _)
      (sorted_sortDescBy (fun r => r.score) (portFilter df port))

/-- C3 witness: slider value 5 on a three-row table with a score tie. -/
theorem c3_bar_chart_top_n_witness :
    (topPhrases 5 (portFilter
        [⟨"P", "d1", "a", 2⟩, ⟨"P", "d2", "b", 3⟩, ⟨"P", "d3", "c", 2⟩] "P")).length =
      min 5 (portFilter
        [⟨"P", "d1", "a", 2⟩, ⟨"P", "d2", "b", 3⟩, ⟨"P", "d3", "c", 2⟩] "P").length
    ∧ topPhrases 5 (portFilter
        [⟨"P", "d1", "a", 2⟩, ⟨"P", "d2", "b", 3⟩, ⟨"P", "d3", "c", 2⟩] "P") =
        (sortDescBy (fun r => r.score) (portFilter
          [⟨"P", "d1", "a", 2⟩, ⟨"P", "d2", "b", 3⟩, ⟨"P", "d3", "c", 2⟩] "P")).take 5
    ∧ List.Pairwise (fun a b => b.score ≤ a.score)
        (topPhrases 5 (portFilter
          [⟨"P", "d1", "a", 2⟩, ⟨"P", "d2", "b", 3⟩, ⟨"P", "d3", "c", 2⟩] "P"))
    ∧ List.Perm (sortDescBy (fun r => r.score) (portFilter
          [⟨"P", "d1", "a", 2⟩, ⟨"P", "d2", "b", 3⟩, ⟨"P", "d3", "c", 2⟩] "P"))
        (portFilter
          [⟨"P", "d1", "a", 2⟩, ⟨"P", "d2", "b", 3⟩, ⟨"P", "d3", "c", 2⟩] "P")
    ∧ ∀ q : ℚ,
        (sortDescBy (fun r => r.score) (portFilter
            [⟨"P", "d1", "a", 2⟩, ⟨"P", "d2", "b", 3⟩, ⟨"P", "d3", "c", 2⟩] "P")).filter
            (fun r => decide (r.score = q)) =
          (portFilter
            [⟨"P", "d1", "a", 2⟩, ⟨"P", "d2", "b", 3⟩, ⟨"P", "d3", "c", 2⟩] "P").filter
            (fun r => decide (r.score = q)) :=
  c3_bar_chart_top_n
    [⟨"P", "d1", "a", 2⟩, ⟨"P", "d2", "b", 3⟩, ⟨"P", "d3", "c", 2⟩] "P" 5
    (by decide) (by decide)

/-- C2 counterexample: the code compares entries to "nil" case-insensitively
(`t.lower() != "nil"`), so a deficiency entry "NIL" is dropped even though it
is not the string "nil"; the concatenation the claim describes differs from
the one the code computes. -/
theorem c2_counterexample :
    combinedText [⟨some "V", some "NIL"⟩] "V" = ""
    ∧ combinedTextSpecLiteral [⟨some "V", some "NIL"⟩] "V" = "NIL"
    ∧ ¬ combinedText [⟨some "V", some "NIL"⟩] "V" =
        combinedTextSpecLiteral [⟨some "V", some "NIL"⟩] "V" := by
  refine ⟨by decide, by decide, by decide⟩

/-- C2 (amended: entries equal to "nil" after case folding are dropped): the
matcher joins the retained entries with single spaces, and — provided the
extractor returns phrases ranked by descending score, as RAKE does — keeps
exactly the top min(10, all) phrases, in descending score order. -/
theorem c2_keyword_pipeline (rake : String → List (ℚ × String))
    (shipDf : List ShipRow) (vessel : String)
    (hsorted : List.Pairwise (fun a b => b.1 ≤ a.1)
      (rake (combinedText shipDf vessel))) :
    combinedText shipDf vessel =
      String.intercalate " "
        ((pastDeficiencies shipDf vessel).filter (fun t => !(pyLower t == "nil")))
    ∧ topKeywords rake shipDf vessel =
        ((rake (combinedText shipDf vessel)).take 10).map Prod.snd
    ∧ (topKeywords rake shipDf vessel).length =
        min 10 (rake (combinedText shipDf vessel)).length
    ∧ List.Pairwise (fun a b => b.1 ≤ a.1)
        ((rake (combinedText shipDf vessel)).take 10)
    ∧ ∀ x ∈ (rake (combinedText shipDf vessel)).drop 10,
        ∀ y ∈ (rake (combinedText shipDf vessel)).take 10, x.1 ≤ y.1 := by
  refine ⟨rfl, rfl, ?_, ?_, ?_⟩
  · rw [topKeywords, List.length_map, List.length_take]
  · exact List.Pairwise.sublist (List.take_sublist 10 _) hsorted
  · intro x hx y hy
    have hp : List.Pairwise (fun a b => b.1 ≤ a.1)
        ((rake (combinedText shipDf vessel)).take 10 ++
          (rake (combinedText shipDf vessel)).drop 10) := by
      rw [List.take_append_drop]
      exact hsorted
    exact (List.pairwise_append.mp hp).2.2 y hy x hx

/-- C2 witness: a vessel with one deficiency entry and a two-phrase
descending extractor output. -/
theorem c2_keyword_pipeline_witness :
    combinedText
        [⟨some "V", some "Fire extinguisher missing. Life jacket expired."⟩] "V" =
      String.intercalate " "
        ((pastDeficiencies
            [⟨some "V", some "Fire extinguisher missing. Life jacket expired."⟩]
            "V").filter (fun t => !(pyLower t == "nil")))
    ∧ topKeywords (fun _ => [(3, "fire extinguisher"), (1, "life jacket")])
        [⟨some "V", some "Fire extinguisher missing. Life jacket expired."⟩] "V" =
        (((fun (_ : String) => [((3 : ℚ), "fire extinguisher"), (1, "life jacket")])
            (combinedText
              [⟨some "V", some "Fire extinguisher missing. Life jacket expired."⟩]
              "V")).take 10).map Prod.snd
    ∧ (topKeywords (fun _ => [(3, "fire extinguisher"), (1, "life jacket")])
        [⟨some "V", some "Fire extinguisher missing. Life jacket expired."⟩]
        "V").length =
        min 10 (((fun (_ : String) => [((3 : ℚ), "fire extinguisher"), (1, "life jacket")])
          (combinedText
            [⟨some "V", some "Fire extinguisher missing. Life jacket expired."⟩]
            "V"))).length
    ∧ List.Pairwise (fun a b => b.1 ≤ a.1)
        ((((fun (_ : String) => [((3 : ℚ), "fire extinguisher"), (1, "life jacket")])
          (combinedText
            [⟨some "V", some "Fire extinguisher missing. Life jacket expired."⟩]
            "V"))).take 10)
    ∧ ∀ x ∈ (((fun (_ : String) => [((3 : ℚ), "fire extinguisher"), (1, "life jacket")])
          (combinedText
            [⟨some "V", some "Fire extinguisher missing. Life jacket expired."⟩]
            "V"))).drop 10,
        ∀ y ∈ (((fun (_ : String) => [((3 : ℚ), "fire extinguisher"), (1, "life jacket")])
          (combinedText
            [⟨some "V", some "Fire extinguisher missing. Life jacket expired."⟩]
            "V"))).take 10, x.1 ≤ y.1 :=
  c2_keyword_pipeline (fun _ => [(3, "fire extinguisher"), (1, "life jacket")])
    [⟨some "V", some "Fire extinguisher missing. Life jacket expired."⟩] "V"
    (by decide)

/-- C6: when every deficiency entry of the selected vessel is "nil" or
absent, the concatenated text is empty, extraction yields no phrases
(the extractor maps empty text to no phrases, as RAKE does), and the UI
shows the informational — not error — message. -/
theorem c6_all_nil_informational (rake : String → List (ℚ × String))
    (shipDf : List ShipRow) (vessel : String)
    (hrake : rake "" = [])
    (hall : ∀ r ∈ shipDf, r.vesselName = some vessel →
      r.deficiency = none ∨ r.deficiency = some "nil") :
    combinedText shipDf vessel = ""
    ∧ topKeywords rake shipDf vessel = []
    ∧ keywordMessage (topKeywords rake shipDf vessel) =
        UiMsg.info "No relevant deficiencies found." := by
  have hfil : (pastDeficiencies shipDf vessel).filter
      (fun t => !(pyLower t == "nil")) = [] := by
    rw [List.filter_eq_nil_iff]
    intro t ht
    rcases List.mem_filterMap.mp ht with ⟨r, hr, hdef⟩
    rcases List.mem_filter.mp hr with ⟨hrdf, hvn⟩
    rcases hall r hrdf (by simpa using hvn) with h0 | h0 <;> rw [h0] at hdef
    · exact absurd hdef (by simp)
    · cases hdef
      decide
  have hct : combinedText shipDf vessel = "" := by
    rw [combinedText, hfil]
    rfl
  have htk : topKeywords rake shipDf vessel = [] := by
    rw [topKeywords, hct, hrake]
    rfl
  exact ⟨hct, htk, by rw [htk]; rfl⟩

/-- C6 witness: a vessel whose two entries are "nil" and a missing cell (a
row of another vessel is present as well). -/
theorem c6_all_nil_informational_witness :
    combinedText
        [⟨some "V", some "nil"⟩, ⟨some "V", none⟩, ⟨some "W", some "Fire"⟩] "V" = ""
    ∧ topKeywords (fun _ => [])
        [⟨some "V", some "nil"⟩, ⟨some "V", none⟩, ⟨some "W", some "Fire"⟩] "V" = []
    ∧ keywordMessage (topKeywords (fun _ => [])
        [⟨some "V", some "nil"⟩, ⟨some "V", none⟩, ⟨some "W", some "Fire"⟩] "V") =
        UiMsg.info "No relevant deficiencies found." :=
  c6_all_nil_informational (fun _ => [])
    [⟨some "V", some "nil"⟩, ⟨some "V", none⟩, ⟨some "W", some "Fire"⟩] "V"
    rfl (by decide)

/-- C4 counterexample: the pandas filter treats the search term as a regular
expression, so searching "." returns a row whose phrase "ab" does not contain
"." as a (case-insensitive) substring. -/
theorem c4_counterexample :
    searchFilter "." (portFilter [⟨"P", "2024-01-01", "ab", 1⟩] "P") =
      [⟨"P", "2024-01-01", "ab", 1⟩]
    ∧ ¬ ciSubstring "." "ab" := by
  constructor
  · decide
  · intro h
    have hb : pyIn (pyLower ".") (pyLower "ab") = true :=
      (pyIn_lower_iff "." "ab").mpr h
    revert hb
    decide

/-- C4 (amended: for search strings free of regex metacharacters): the
displayed table holds exactly the port-filtered rows whose phrase contains
the search string case-insensitively. -/
theorem c4_search_literal (df : List AuthorityRow) (port s : String)
    (hne : ¬ s = "") (hlit : ∀ c ∈ s.data, c ∉ regexMetachars) :
    ∀ r, r ∈ searchFilter s (portFilter df port) ↔
      r ∈ portFilter df port ∧ ciSubstring s r.phrase := by
  intro r
  rw [searchFilter, if_neg hne, List.mem_filter]
  have hsearch := reSearch_literal s r.phrase hlit
  constructor
  · rintro ⟨hmem, hp⟩
    refine ⟨hmem, (pyIn_lower_iff s r.phrase).mp ?_⟩
    rw [← hsearch]
    exact hp
  · rintro ⟨hmem, hci⟩
    refine ⟨hmem, ?_⟩
    rw [hsearch]
    exact (pyIn_lower_iff s r.phrase).mpr hci

/-- C4 witness: the literal search "fire" on a one-row table whose phrase
contains "Fire". -/
theorem c4_search_literal_witness :
    (⟨"P", "2024-01-01", "Fire safety", 1⟩ : AuthorityRow) ∈ searchFilter "fire"
        (portFilter [⟨"P", "2024-01-01", "Fire safety", 1⟩] "P") ↔
      (⟨"P", "2024-01-01", "Fire safety", 1⟩ : AuthorityRow) ∈
          portFilter [⟨"P", "2024-01-01", "Fire safety", 1⟩] "P"
        ∧ ciSubstring "fire" (⟨"P", "2024-01-01", "Fire safety", 1⟩ : AuthorityRow).phrase :=
  c4_search_literal [⟨"P", "2024-01-01", "Fire safety", 1⟩] "P" "fire"
    (by decide) (by decide) ⟨"P", "2024-01-01", "Fire safety", 1⟩

/-- C8: each loader returns the parsed table on success; on failure it
surfaces a user-visible error message and returns an absent result, and the
whole render pass halts with no downstream view. -/
theorem c8_load_failure_halts (authRead : Except String (List AuthorityRow))
    (shipRead : Except String (List ShipRow))
    (rake : String → List (ℚ × String)) (dr : Option (String × String))
    (port vessel searchTerm : String) (topN : ℕ) (today : String) :
    (∀ df, authRead = Except.ok df →
      load_authority_data authRead = (some df, []))
    ∧ (∀ shipDf, shipRead = Except.ok shipDf →
        load_ship_data shipRead = (some shipDf, []))
    ∧ (∀ df shipDf, authRead = Except.ok df → shipRead = Except.ok shipDf →
        mainGuard rake authRead shipRead dr port vessel searchTerm topN today =
          (some (mainView rake df shipDf dr port vessel searchTerm topN today),
            []))
    ∧ (∀ e, authRead = Except.error e →
        load_authority_data authRead =
          (none, [UiMsg.error ("Error loading authority data: " ++ e)])
        ∧ (mainGuard rake authRead shipRead dr port vessel searchTerm topN
            today).fst = none
        ∧ UiMsg.error ("Error loading authority data: " ++ e) ∈
            (mainGuard rake authRead shipRead dr port vessel searchTerm topN
              today).snd)
    ∧ ∀ e, shipRead = Except.error e →
        load_ship_data shipRead =
          (none, [UiMsg.error ("Error loading ship data: " ++ e)])
        ∧ (mainGuard rake authRead shipRead dr port vessel searchTerm topN
            today).fst = none
        ∧ UiMsg.error ("Error loading ship data: " ++ e) ∈
            (mainGuard rake authRead shipRead dr port vessel searchTerm topN
              today).snd := by
  refine ⟨fun df h => by rw [h]; rfl,
    fun shipDf h => by rw [h]; rfl,
    fun df shipDf h1 h2 => by rw [h1, h2]; rfl, ?_, ?_⟩
  · rintro e rfl
    refine ⟨rfl, ?_, ?_⟩ <;>
      cases shipRead <;>
        simp [mainGuard, load_authority_data, load_ship_data]
  · rintro e rfl
    refine ⟨rfl, ?_, ?_⟩ <;>
      cases authRead <;>
        simp [mainGuard, load_authority_data, load_ship_data]

/-- C8 witness: a failing authority load with a succeeding ship load. -/
theorem c8_load_failure_halts_witness :
    load_authority_data (Except.error "boom") =
      (none, [UiMsg.error ("Error loading authority data: " ++ "boom")])
    ∧ (mainGuard (fun _ => []) (Except.error "boom") (Except.ok [])
        none "P" "V" "" 10 "20260101").fst = none
    ∧ UiMsg.error ("Error loading authority data: " ++ "boom") ∈
        (mainGuard (fun _ => []) (Except.error "boom") (Except.ok [])
          none "P" "V" "" 10 "20260101").snd :=
  (c8_load_failure_halts (Except.error "boom") (Except.ok []) (fun _ => [])
    none "P" "V" "" 10 "20260101").2.2.2.1 "boom" rfl
